import Mathlib

/-!
Verification of the RETURN/REVERT bus-mapping handler
(`src/bus-mapping/src/evm/opcodes/return_revert.rs`).

The handler `gen_associated_ops` and its two record builders `handle_copy`
and `handle_create` are translated from the source.  The primitives they
call (`push_op`, `push_copy`, `stack_read`, `call_context_read`,
`memory_read`, `push_op_reversible`, `Memory::extend_at_least`,
`Bytecode::hash_h256`, `CodeDB::empty_code_hash`,
`handle_restore_context`, `handle_return`) are declared in other crates of
the repository that are not part of the analysed sources; each such
definition below is modelled from the specification and carries a doc
comment saying so.

Machine integers are modelled as `Nat`; 256-bit stack words are `Nat`
values and truncation to the low 64 bits is explicit (`wordLow64`).
Fallible operations return `Except Err _`; a Rust panic on a
width-conversion overflow is modelled as the propagated error
`Err.overflow` and the EIP-3541 `assert_ne!` as the distinct
internal-consistency fault `Err.internalInvariant`, following the
specification's error-handling design notes.
-/

/-- Read/write tag of an operation. -/
inductive RW
| READ
| WRITE
deriving DecidableEq

/-- Call-context fields read by this handler. -/
inductive CallContextField
| IsSuccess
| CallerId
| CalleeAddress
| RwCounterEndOfReversion
| IsPersistent
| ReturnDataOffset
| ReturnDataLength
deriving DecidableEq

/-- Account fields written by this handler. -/
inductive AccountField
| CodeHash
deriving DecidableEq

/-- Region kinds appearing in copy events emitted here. -/
inductive CopyDataType
| Memory
| Bytecode
deriving DecidableEq

/-- Identity of a copy-event endpoint: a call id or a content hash. -/
inductive NumberOrHash
| Number (n : Nat)
| Hash (h : Nat)
deriving DecidableEq

/-- The resource accessed by one operation.  `restoreContextOp` stands for
the operation bundle emitted by the external restore-caller-context
collaborator, whose exact field set is owned by that collaborator. -/
inductive OpKind
| stackOp (call_id : Nat) (slot : Nat) (value : Nat)
| memoryOp (call_id : Nat) (address : Nat) (value : Nat)
| callContextOp (call_id : Nat) (field : CallContextField) (value : Nat)
| accountOp (address : Nat) (field : AccountField) (value : Nat) (value_prev : Nat)
| restoreContextOp (call_id : Nat)
deriving DecidableEq

/-- One recorded operation: global sequence number, read/write tag,
resource access, and whether the write is reversible. -/
structure Operation where
  rwc : Nat
  rw : RW
  op : OpKind
  reversible : Bool
deriving DecidableEq

/-- A copy event summarizing one contiguous byte transfer. -/
structure CopyEvent where
  rw_counter_start : Nat
  src_type : CopyDataType
  src_id : NumberOrHash
  src_addr : Nat
  src_addr_end : Nat
  dst_type : CopyDataType
  dst_id : NumberOrHash
  dst_addr : Nat
  log_id : Option Nat
  bytes : List (Nat × Bool)
deriving DecidableEq

/-- The fields of the current call frame consulted by the handler. -/
structure Call where
  call_id : Nat
  caller_id : Nat
  address : Nat
  is_root : Bool
  is_create : Bool
  is_success : Bool
  is_persistent : Bool
  rw_counter_end_of_reversion : Nat
  return_data_offset : Nat
  return_data_length : Nat
deriving DecidableEq

/-- The trace snapshot for this instruction: the stack with its top as the
head of the list, so that `nth_last i` is element `i`. -/
structure GethStep where
  stack : List Nat
deriving DecidableEq

/-- Source region of a byte transfer, as in the source file. -/
structure Source where
  id : Nat
  offset : Nat
  length : Nat
deriving DecidableEq

/-- Destination region of a byte transfer, as in the source file. -/
structure Destination where
  id : Nat
  offset : Nat
  length : Nat
deriving DecidableEq

/-- Failure kinds.  `stackUnderflow` and `overflow` are propagated trace
errors; `internalInvariant` is the distinct internal-consistency fault of
the EIP-3541 defensive check. -/
inductive Err
| stackUnderflow
| overflow
| internalInvariant
deriving DecidableEq

/-- The mutable builder state threaded through the handler: the block-wide
sequence counter, the current call and the two memory buffers it can
touch, the operations and copy events recorded into the execution step,
and the content-addressed code store. -/
structure State where
  rwc : Nat
  call : Call
  callMemory : List Nat
  callerMemory : List Nat
  ops : List Operation
  copyEvents : List CopyEvent
  codeDB : List (Nat × List Nat)
deriving DecidableEq

/-- Modelled from the spec: truncation of a 256-bit stack word to its low
64 bits (`Word::low_u64`). -/
def wordLow64 (w : Nat) : Nat := w % 2 ^ 64

/-- Modelled from the spec: `to_word` on a boolean flag. -/
def boolToWord (b : Bool) : Nat := if b then 1 else 0

/-- Modelled from the spec: `Word::as_usize`; a value not fitting the
native width is an address-conversion overflow, a propagated error. -/
def asUsize (w : Nat) : Except Err Nat :=
  if w < 2 ^ 64 then Except.ok w else Except.error Err.overflow

/-- Modelled from the spec: the 64-bit address arithmetic feeding
`try_into().unwrap()`; overflow of the native width is a propagated
error. -/
def u64TryInto (n : Nat) : Except Err Nat :=
  if n < 2 ^ 64 then Except.ok n else Except.error Err.overflow

/-- Modelled from the spec: `Memory::extend_at_least` grows the buffer so
it covers at least `n` bytes, zero-filled on growth, never shrinking. -/
def extendAtLeast (m : List Nat) (n : Nat) : List Nat :=
  if m.length < n then m ++ List.replicate (n - m.length) 0 else m

/-- The byte slice `m[a .. a + len]` of a memory buffer. -/
def memSlice (m : List Nat) (a len : Nat) : List Nat :=
  (m.drop a).take len

/-- Overwrite of `m[a .. a + bs.length]` with `bs`
(`copy_from_slice`); positions outside the buffer are left unchanged. -/
def writeSlice (m : List Nat) (a : Nat) (bs : List Nat) : List Nat :=
  match bs with
  | [] => m
  | b :: rest => writeSlice (m.set a b) (a + 1) rest

/-- Modelled from the spec: the deterministic content hash of a byte
sequence (`Bytecode::hash_h256`), here a concrete injective-by-intent
polynomial fold; every use site below uses this same function. -/
def codeHash (bs : List Nat) : Nat :=
  bs.foldl (fun h b => (h * 257 + b + 1) % 2 ^ 256) 1

/-- Modelled from the spec: `CodeDB::empty_code_hash`, the canonical hash
of the empty byte sequence. -/
def emptyCodeHash : Nat := codeHash []

/-- Modelled from the spec: `Bytecode::code_vec`, the byte sequence paired
with per-byte instruction flags; the flags are owned by the bytecode
crate and modelled as a fixed value, the byte values are exact. -/
def codeVec (bs : List Nat) : List (Nat × Bool) :=
  bs.map (fun b => (b, true))

/-- Modelled from the spec: idempotent content-addressed insertion into
the Code Store. -/
def insertCode (db : List (Nat × List Nat)) (h : Nat) (bs : List Nat) :
    List (Nat × List Nat) :=
  if db.any (fun p => p.1 = h) then db else db ++ [(h, bs)]

/-- Modelled from the spec: the Operation Log's `push_op` assigns the
current counter value to the record and increments the counter by one. -/
def pushOp (s : State) (rw : RW) (k : OpKind) : State :=
  { s with rwc := s.rwc + 1, ops := s.ops ++ [⟨s.rwc, rw, k, false⟩] }

/-- Modelled from the spec: `push_op_reversible` records an account write
together with its previous value, marked reversible. -/
def pushOpReversible (s : State) (k : OpKind) : State :=
  { s with rwc := s.rwc + 1, ops := s.ops ++ [⟨s.rwc, RW.WRITE, k, true⟩] }

/-- Modelled from the spec: `push_copy` appends one copy event to the
execution step. -/
def pushCopy (s : State) (ev : CopyEvent) : State :=
  { s with copyEvents := s.copyEvents ++ [ev] }

/-- Modelled from the spec: `stack_read` records one stack read. -/
def stackRead (s : State) (slot : Nat) (value : Nat) : State :=
  pushOp s RW.READ (OpKind.stackOp s.call.call_id slot value)

/-- Modelled from the spec: `call_context_read` records one call-context
read. -/
def callContextRead (s : State) (call_id : Nat) (f : CallContextField)
    (value : Nat) : State :=
  pushOp s RW.READ (OpKind.callContextOp call_id f value)

/-- Modelled from the spec: `memory_read` records one memory-byte read of
the current call. -/
def memoryRead (s : State) (address value : Nat) : State :=
  pushOp s RW.READ (OpKind.memoryOp s.call.call_id address value)

/-- Modelled from the spec: the restore-caller-context collaborator,
invoked exactly once for a non-root call; the exact operations it emits
are owned by that collaborator and modelled as one opaque bundle
record. -/
def handleRestoreContext (s : State) : State :=
  pushOp s RW.READ (OpKind.restoreContextOp s.call.call_id)

/-- Modelled from the spec: the finalize-return collaborator; gas and
call-stack bookkeeping are out of this core's scope, and the staged code
of a successful creation call with nonzero length is committed into the
Code Store. -/
def handleReturn (s : State) (offset length : Nat) : State :=
  if s.call.is_create && s.call.is_success && decide (0 < length) then
    let values := memSlice s.callMemory offset length
    { s with codeDB := insertCode s.codeDB (codeHash values) values }
  else s

/-- `Stack::nth_last`: element `i` from the top; missing depth is a
propagated stack underflow. -/
def nthLast (stk : List Nat) (i : Nat) : Except Err Nat :=
  match stk.get? i with
  | some w => Except.ok w
  | none => Except.error Err.stackUnderflow

/-- `Stack::nth_last_filled`: the absolute stack slot of element `i` from
the top in a 1024-deep stack. -/
def nthLastFilled (stk : List Nat) (i : Nat) : Nat :=
  1024 - stk.length + i

/-- The EIP-3541 banned leading byte of deployed code. -/
def INVALID_INIT_CODE_FIRST_BYTE : Nat := 0xef

/-- Translation of `handle_copy` from
`src/bus-mapping/src/evm/opcodes/return_revert.rs`. -/
def handleCopy (state : State) (source : Source) (destination : Destination) :
    State :=
  let copy_length := min source.length destination.length
  let bytes := (memSlice state.callMemory source.offset copy_length).map
    (fun byte => (byte, false))
  let rw_counter_start := state.rwc
  let s := bytes.enum.foldl
    (fun st p =>
      let st := pushOp st RW.READ
        (OpKind.memoryOp source.id (source.offset + p.1) p.2.1)
      pushOp st RW.WRITE
        (OpKind.memoryOp destination.id (destination.offset + p.1) p.2.1))
    state
  pushCopy s
    { rw_counter_start := rw_counter_start
      src_type := CopyDataType.Memory
      src_id := NumberOrHash.Number source.id
      src_addr := source.offset
      src_addr_end := source.offset + source.length
      dst_type := CopyDataType.Memory
      dst_id := NumberOrHash.Number destination.id
      dst_addr := destination.offset
      log_id := none
      bytes := bytes }

/-- Translation of `handle_create` from
`src/bus-mapping/src/evm/opcodes/return_revert.rs`. -/
def handleCreate (state : State) (source : Source) : State × Nat :=
  let values := memSlice state.callMemory source.offset source.length
  let code_hash := codeHash values
  let bytes := codeVec values
  let rw_counter_start := state.rwc
  let s := bytes.enum.foldl
    (fun st p =>
      pushOp st RW.READ
        (OpKind.memoryOp source.id (source.offset + p.1) p.2.1))
    state
  let s := pushCopy s
    { rw_counter_start := rw_counter_start
      src_type := CopyDataType.Memory
      src_id := NumberOrHash.Number source.id
      src_addr := source.offset
      src_addr_end := source.offset + source.length
      dst_type := CopyDataType.Bytecode
      dst_id := NumberOrHash.Hash code_hash
      dst_addr := 0
      log_id := none
      bytes := bytes }
  (s, code_hash)

/-- Case B of `gen_associated_ops`: a root call records a read of
`IsPersistent`.  `call` is the clone of the current call taken before the
cases, whose fields coincide with `s.call` (never mutated here). -/
def caseB (call : Call) (s : State) : State :=
  if call.is_root then
    callContextRead s call.call_id CallContextField.IsPersistent
      (boolToWord call.is_persistent)
  else s

/-- Case C of `gen_associated_ops`: a non-root call delegates to the
restore-caller-context collaborator. -/
def caseC (call : Call) (s : State) : State :=
  if !call.is_root then handleRestoreContext s else s

/-- Case D of `gen_associated_ops`: a non-root, non-creation call records
its return-data descriptors, physically copies the returned bytes into
the caller's memory and then invokes `handleCopy` over the transfer. -/
def caseD (call : Call) (offset length : Nat) (s : State) : State :=
  if !call.is_root && !call.is_create then
    let s := callContextRead s call.call_id
      CallContextField.ReturnDataOffset call.return_data_offset
    let s := callContextRead s call.call_id
      CallContextField.ReturnDataLength call.return_data_length
    let return_data_length := call.return_data_length
    let copy_length := min return_data_length length
    if 0 < copy_length then
      let callee_memory := s.callMemory
      let return_offset := call.return_data_offset
      let caller_mem := writeSlice s.callerMemory return_offset
        (memSlice callee_memory offset copy_length)
      let s := { s with callerMemory := caller_mem }
      handleCopy s
        { id := call.call_id, offset := offset, length := length }
        { id := call.caller_id, offset := return_offset,
          length := return_data_length }
    else s
  else s

/-- The part of `gen_associated_ops` after Case A: Cases B, C, D in
sequence and the finalize-return delegation, split into its own
definition because it is reached both when Case A runs and when it is
skipped. -/
def returnRevertTail (offset length : Nat) (s : State) : State :=
  let call := s.call
  handleReturn (caseD call offset length (caseC call (caseB call s)))
    offset length

/-- Translation of `ReturnRevert::gen_associated_ops` from
`src/bus-mapping/src/evm/opcodes/return_revert.rs`; Cases B, C and D and
the finalize-return delegation are `returnRevertTail`. -/
def genAssociatedOps (state : State) (step : GethStep) : Except Err State :=
  match nthLast step.stack 0, nthLast step.stack 1 with
  | Except.error e, _ => Except.error e
  | Except.ok _, Except.error e => Except.error e
  | Except.ok offsetWord, Except.ok lengthWord =>
    let s := stackRead state (nthLastFilled step.stack 0) offsetWord
    let s := stackRead s (nthLastFilled step.stack 1) lengthWord
    let extended : Except Err State :=
      if lengthWord ≠ 0 then
        (u64TryInto (wordLow64 offsetWord + wordLow64 lengthWord)).map
          (fun n => { s with callMemory := extendAtLeast s.callMemory n })
      else Except.ok s
    match extended with
    | Except.error e => Except.error e
    | Except.ok s =>
      let call := s.call
      let s := callContextRead s call.call_id CallContextField.IsSuccess
        (boolToWord call.is_success)
      let offset := wordLow64 offsetWord
      match asUsize lengthWord with
      | Except.error e => Except.error e
      | Except.ok length =>
        if call.is_create && call.is_success && decide (0 < length) then
          let init_code_first_byte := s.callMemory.getD offset 0
          let s := memoryRead s offset init_code_first_byte
          if init_code_first_byte = INVALID_INIT_CODE_FIRST_BYTE then
            Except.error Err.internalInvariant
          else
            let pair := handleCreate s
              { id := call.call_id, offset := offset, length := length }
            let s := pair.1
            let code_hash := pair.2
            let s := callContextRead s call.call_id CallContextField.CallerId
              call.caller_id
            let s := callContextRead s call.call_id
              CallContextField.CalleeAddress call.address
            let s := callContextRead s call.call_id
              CallContextField.RwCounterEndOfReversion
              call.rw_counter_end_of_reversion
            let s := callContextRead s call.call_id
              CallContextField.IsPersistent (boolToWord call.is_persistent)
            let s := pushOpReversible s
              (OpKind.accountOp call.address AccountField.CodeHash code_hash
                emptyCodeHash)
            Except.ok (returnRevertTail offset length s)
        else
          Except.ok (returnRevertTail offset length s)

/-! ### Projection lemmas for the record-pushing primitives -/

@[simp] theorem pushOp_rwc (s : State) (rw : RW) (k : OpKind) :
    (pushOp s rw k).rwc = s.rwc + 1 := rfl

@[simp] theorem pushOp_ops (s : State) (rw : RW) (k : OpKind) :
    (pushOp s rw k).ops = s.ops ++ [⟨s.rwc, rw, k, false⟩] := rfl

@[simp] theorem pushOp_call (s : State) (rw : RW) (k : OpKind) :
    (pushOp s rw k).call = s.call := rfl

@[simp] theorem pushOp_callMemory (s : State) (rw : RW) (k : OpKind) :
    (pushOp s rw k).callMemory = s.callMemory := rfl

@[simp] theorem pushOp_callerMemory (s : State) (rw : RW) (k : OpKind) :
    (pushOp s rw k).callerMemory = s.callerMemory := rfl

@[simp] theorem pushOp_copyEvents (s : State) (rw : RW) (k : OpKind) :
    (pushOp s rw k).copyEvents = s.copyEvents := rfl

@[simp] theorem pushOp_codeDB (s : State) (rw : RW) (k : OpKind) :
    (pushOp s rw k).codeDB = s.codeDB := rfl

@[simp] theorem pushOpReversible_rwc (s : State) (k : OpKind) :
    (pushOpReversible s k).rwc = s.rwc + 1 := rfl

@[simp] theorem pushOpReversible_ops (s : State) (k : OpKind) :
    (pushOpReversible s k).ops = s.ops ++ [⟨s.rwc, RW.WRITE, k, true⟩] := rfl

@[simp] theorem pushOpReversible_call (s : State) (k : OpKind) :
    (pushOpReversible s k).call = s.call := rfl

@[simp] theorem pushOpReversible_callMemory (s : State) (k : OpKind) :
    (pushOpReversible s k).callMemory = s.callMemory := rfl

@[simp] theorem pushOpReversible_callerMemory (s : State) (k : OpKind) :
    (pushOpReversible s k).callerMemory = s.callerMemory := rfl

@[simp] theorem pushOpReversible_copyEvents (s : State) (k : OpKind) :
    (pushOpReversible s k).copyEvents = s.copyEvents := rfl

@[simp] theorem pushOpReversible_codeDB (s : State) (k : OpKind) :
    (pushOpReversible s k).codeDB = s.codeDB := rfl

@[simp] theorem pushCopy_rwc (s : State) (ev : CopyEvent) :
    (pushCopy s ev).rwc = s.rwc := rfl

@[simp] theorem pushCopy_ops (s : State) (ev : CopyEvent) :
    (pushCopy s ev).ops = s.ops := rfl

@[simp] theorem pushCopy_call (s : State) (ev : CopyEvent) :
    (pushCopy s ev).call = s.call := rfl

@[simp] theorem pushCopy_callMemory (s : State) (ev : CopyEvent) :
    (pushCopy s ev).callMemory = s.callMemory := rfl

@[simp] theorem pushCopy_callerMemory (s : State) (ev : CopyEvent) :
    (pushCopy s ev).callerMemory = s.callerMemory := rfl

@[simp] theorem pushCopy_copyEvents (s : State) (ev : CopyEvent) :
    (pushCopy s ev).copyEvents = s.copyEvents ++ [ev] := rfl

@[simp] theorem pushCopy_codeDB (s : State) (ev : CopyEvent) :
    (pushCopy s ev).codeDB = s.codeDB := rfl

/-! ### Closed forms of the per-byte record loops -/

/-- The operations pushed by the `handle_copy` loop: one READ/WRITE pair
per byte, at consecutive sequence numbers and increasing offsets. -/
def copyOpsAux (start sid did soff doff : Nat) : List Nat → List Operation
  | [] => []
  | b :: bs =>
    ⟨start, RW.READ, OpKind.memoryOp sid soff b, false⟩ ::
    ⟨start + 1, RW.WRITE, OpKind.memoryOp did doff b, false⟩ ::
    copyOpsAux (start + 2) sid did (soff + 1) (doff + 1) bs

/-- The operations pushed by the `handle_create` loop: one READ per byte,
at consecutive sequence numbers and increasing offsets. -/
def createOpsAux (start sid soff : Nat) : List Nat → List Operation
  | [] => []
  | b :: bs =>
    ⟨start, RW.READ, OpKind.memoryOp sid soff b, false⟩ ::
    createOpsAux (start + 1) sid (soff + 1) bs

@[simp] theorem copyOpsAux_nil (start sid did soff doff : Nat) :
    copyOpsAux start sid did soff doff [] = [] := rfl

@[simp] theorem createOpsAux_nil (start sid soff : Nat) :
    createOpsAux start sid soff [] = [] := rfl

theorem copyOpsAux_length (sid did : Nat) : ∀ (bs : List Nat)
    (start soff doff : Nat),
    (copyOpsAux start sid did soff doff bs).length = 2 * bs.length := by
  intro bs
  induction bs with
  | nil => intro start soff doff; simp [copyOpsAux]
  | cons b bs ih =>
    intro start soff doff
    simp [copyOpsAux, ih]
    omega

theorem createOpsAux_length (sid : Nat) : ∀ (bs : List Nat)
    (start soff : Nat),
    (createOpsAux start sid soff bs).length = bs.length := by
  intro bs
  induction bs with
  | nil => intro start soff; simp [createOpsAux]
  | cons b bs ih =>
    intro start soff
    simp [createOpsAux, ih]

theorem copy_loop_eq (sid did soff doff : Nat) :
    ∀ (l : List (Nat × Bool)) (j : Nat) (s : State),
    (l.enumFrom j).foldl
      (fun st p =>
        let st := pushOp st RW.READ
          (OpKind.memoryOp sid (soff + p.1) p.2.1)
        pushOp st RW.WRITE
          (OpKind.memoryOp did (doff + p.1) p.2.1)) s
    = { s with rwc := s.rwc + 2 * l.length,
               ops := s.ops ++
                 copyOpsAux s.rwc sid did (soff + j) (doff + j)
                   (l.map Prod.fst) } := by
  intro l
  induction l with
  | nil => intro j s; simp
  | cons p l ih =>
    intro j s
    simp only [List.enumFrom, List.foldl, List.map, List.length_cons]
    rw [ih]
    simp [pushOp, copyOpsAux, List.append_assoc, Nat.add_assoc]
    all_goals omega

theorem create_loop_eq (sid soff : Nat) :
    ∀ (l : List (Nat × Bool)) (j : Nat) (s : State),
    (l.enumFrom j).foldl
      (fun st p =>
        pushOp st RW.READ (OpKind.memoryOp sid (soff + p.1) p.2.1)) s
    = { s with rwc := s.rwc + l.length,
               ops := s.ops ++
                 createOpsAux s.rwc sid (soff + j) (l.map Prod.fst) } := by
  intro l
  induction l with
  | nil => intro j s; simp
  | cons p l ih =>
    intro j s
    simp only [List.enumFrom, List.foldl, List.map, List.length_cons]
    rw [ih]
    simp [pushOp, createOpsAux, List.append_assoc, Nat.add_assoc]
    all_goals omega

/-- The copy event recorded by `handleCopy` on state `s`. -/
def copyEventOf (s : State) (src : Source) (dst : Destination) : CopyEvent :=
  { rw_counter_start := s.rwc
    src_type := CopyDataType.Memory
    src_id := NumberOrHash.Number src.id
    src_addr := src.offset
    src_addr_end := src.offset + src.length
    dst_type := CopyDataType.Memory
    dst_id := NumberOrHash.Number dst.id
    dst_addr := dst.offset
    log_id := none
    bytes := (memSlice s.callMemory src.offset
      (min src.length dst.length)).map (fun b => (b, false)) }

/-- The copy event recorded by `handleCreate` on state `s`. -/
def createEventOf (s : State) (src : Source) : CopyEvent :=
  { rw_counter_start := s.rwc
    src_type := CopyDataType.Memory
    src_id := NumberOrHash.Number src.id
    src_addr := src.offset
    src_addr_end := src.offset + src.length
    dst_type := CopyDataType.Bytecode
    dst_id := NumberOrHash.Hash
      (codeHash (memSlice s.callMemory src.offset src.length))
    dst_addr := 0
    log_id := none
    bytes := codeVec (memSlice s.callMemory src.offset src.length) }

theorem handleCopy_eq (s : State) (src : Source) (dst : Destination) :
    handleCopy s src dst =
    { s with
      rwc := s.rwc + 2 *
        (memSlice s.callMemory src.offset (min src.length dst.length)).length
      ops := s.ops ++ copyOpsAux s.rwc src.id dst.id src.offset dst.offset
        (memSlice s.callMemory src.offset (min src.length dst.length))
      copyEvents := s.copyEvents ++ [copyEventOf s src dst] } := by
  have henum : ∀ (l : List (Nat × Bool)), l.enum = l.enumFrom 0 := by
    intro l; rfl
  simp only [handleCopy, henum]
  rw [copy_loop_eq]
  simp [pushCopy, copyEventOf, List.map_map, Function.comp_def]

theorem handleCreate_eq (s : State) (src : Source) :
    handleCreate s src =
    ({ s with
      rwc := s.rwc + (memSlice s.callMemory src.offset src.length).length
      ops := s.ops ++ createOpsAux s.rwc src.id src.offset
        (memSlice s.callMemory src.offset src.length)
      copyEvents := s.copyEvents ++ [createEventOf s src] },
     codeHash (memSlice s.callMemory src.offset src.length)) := by
  have henum : ∀ (l : List (Nat × Bool)), l.enum = l.enumFrom 0 := by
    intro l; rfl
  simp only [handleCreate, henum]
  rw [create_loop_eq]
  simp [pushCopy, createEventOf, codeVec, List.map_map, Function.comp_def]

/-! ### Memory-buffer lemmas -/

theorem extendAtLeast_length (m : List Nat) (n : Nat) :
    (extendAtLeast m n).length = max m.length n := by
  simp only [extendAtLeast]
  split <;> simp <;> omega

theorem extendAtLeast_take (m : List Nat) (n : Nat) :
    (extendAtLeast m n).take m.length = m := by
  simp only [extendAtLeast]
  split
  · rw [List.take_append_of_le_length (by omega)]
    simp
  · simp

theorem extendAtLeast_drop_zero (m : List Nat) (n : Nat) :
    ((extendAtLeast m n).drop m.length).all (fun b => b == 0) = true := by
  simp only [extendAtLeast]
  split
  · rw [List.drop_append_of_le_length (by omega)]
    simp [List.all_eq_true]
  · simp

theorem memSlice_length_of_le (m : List Nat) (a len : Nat)
    (h : a + len ≤ m.length) : (memSlice m a len).length = len := by
  simp [memSlice]
  omega

theorem writeSlice_length : ∀ (bs m : List Nat) (a : Nat),
    (writeSlice m a bs).length = m.length := by
  intro bs
  induction bs with
  | nil => intro m a; rfl
  | cons b rest ih =>
    intro m a
    simp [writeSlice, ih]

theorem writeSlice_getElem?_lt : ∀ (bs m : List Nat) (a i : Nat),
    i < a → (writeSlice m a bs)[i]? = m[i]? := by
  intro bs
  induction bs with
  | nil => intro m a i _; rfl
  | cons b rest ih =>
    intro m a i hi
    simp only [writeSlice]
    rw [ih _ _ _ (by omega)]
    exact List.getElem?_set_ne (by omega)

theorem writeSlice_slice : ∀ (bs m : List Nat) (a : Nat),
    a + bs.length ≤ m.length →
    memSlice (writeSlice m a bs) a bs.length = bs := by
  intro bs
  induction bs with
  | nil => intro m a _; simp [memSlice, writeSlice]
  | cons b rest ih =>
    intro m a h
    simp only [writeSlice, memSlice, List.length_cons]
    have hlen : a < (writeSlice (m.set a b) (a + 1) rest).length := by
      rw [writeSlice_length]
      simp
      simp at h
      omega
    rw [List.drop_eq_getElem_cons hlen]
    have hval : (writeSlice (m.set a b) (a + 1) rest)[a] = b := by
      have h1 : (writeSlice (m.set a b) (a + 1) rest)[a]? = (m.set a b)[a]? := by
        exact writeSlice_getElem?_lt _ _ _ _ (by omega)
      have h2 : (m.set a b)[a]? = some b := by
        rw [List.getElem?_set_self']
        rw [List.getElem?_eq_getElem (by simp at h ⊢; omega)]
        rfl
      rw [List.getElem_eq_iff]
      rw [h1, h2]
    rw [hval]
    simp only [List.take_succ_cons]
    have := ih (m.set a b) (a + 1) (by simp at h ⊢; omega)
    simp only [memSlice] at this
    rw [this]

/-! ### The sequence-counter discipline -/

/-- Checks that a run of operations carries consecutive sequence numbers
starting at `start`. -/
def consecB : Nat → List Operation → Bool
  | _, [] => true
  | start, op :: l => (op.rwc == start) && consecB (start + 1) l

/-- Checks that a copy event's starting sequence number is carried by the
matching first per-byte READ operation of the log, when the event has any
bytes. -/
def evOkB (ev : CopyEvent) (ops : List Operation) : Bool :=
  match ev.bytes.head? with
  | none => true
  | some (b, _) =>
    match ev.src_id with
    | NumberOrHash.Number sid =>
      decide ((⟨ev.rw_counter_start, RW.READ,
        OpKind.memoryOp sid ev.src_addr b, false⟩ : Operation) ∈ ops)
    | NumberOrHash.Hash _ => false

/-- `evOkB` over a list of copy events. -/
def evsOkB (evs : List CopyEvent) (ops : List Operation) : Bool :=
  evs.all (fun ev => evOkB ev ops)

theorem consecB_append (l₁ : List Operation) : ∀ (start : Nat)
    (l₂ : List Operation),
    consecB start (l₁ ++ l₂) =
      (consecB start l₁ && consecB (start + l₁.length) l₂) := by
  induction l₁ with
  | nil => intro start l₂; simp [consecB]
  | cons op l ih =>
    intro start l₂
    simp [consecB, ih, Nat.add_assoc, Bool.and_assoc, Nat.add_comm 1 l.length]

theorem consecB_copyOpsAux (sid did : Nat) : ∀ (bs : List Nat)
    (start soff doff : Nat),
    consecB start (copyOpsAux start sid did soff doff bs) = true := by
  intro bs
  induction bs with
  | nil => intro start soff doff; rfl
  | cons b rest ih =>
    intro start soff doff
    simp [copyOpsAux, consecB, ih]

theorem consecB_createOpsAux (sid : Nat) : ∀ (bs : List Nat)
    (start soff : Nat),
    consecB start (createOpsAux start sid soff bs) = true := by
  intro bs
  induction bs with
  | nil => intro start soff; rfl
  | cons b rest ih =>
    intro start soff
    simp [createOpsAux, consecB, ih]

theorem evOkB_mono (ev : CopyEvent) (ops more : List Operation)
    (h : evOkB ev ops = true) : evOkB ev (ops ++ more) = true := by
  unfold evOkB at h ⊢
  cases hb : ev.bytes.head? with
  | none => rfl
  | some p =>
    rw [hb] at h
    cases p with
    | mk b fl =>
      cases hid : ev.src_id with
      | Number sid =>
        rw [hid] at h
        simp at h ⊢
        exact Or.inl h
      | Hash hh =>
        rw [hid] at h
        simp at h

theorem evsOkB_mono (evs : List CopyEvent) (ops more : List Operation)
    (h : evsOkB evs ops = true) : evsOkB evs (ops ++ more) = true := by
  simp only [evsOkB, List.all_eq_true] at h ⊢
  intro ev hev
  exact evOkB_mono ev ops more (h ev hev)

/-- One handler phase extends the record log: operations are appended with
consecutive sequence numbers continuing the counter, the counter advances
by exactly the number of appended operations, and every appended copy
event's starting number is witnessed by its first per-byte operation. -/
def StepExt (s t : State) : Prop :=
  ∃ l evs, t.ops = s.ops ++ l ∧ t.rwc = s.rwc + l.length ∧
    consecB s.rwc l = true ∧
    t.copyEvents = s.copyEvents ++ evs ∧ evsOkB evs t.ops = true

theorem stepExt_refl (s : State) : StepExt s s :=
  ⟨[], [], by simp, by simp, rfl, by simp, rfl⟩

theorem stepExt_trans {s t u : State} (h₁ : StepExt s t)
    (h₂ : StepExt t u) : StepExt s u := by
  obtain ⟨l₁, evs₁, hops₁, hrwc₁, hc₁, hev₁, hok₁⟩ := h₁
  obtain ⟨l₂, evs₂, hops₂, hrwc₂, hc₂, hev₂, hok₂⟩ := h₂
  refine ⟨l₁ ++ l₂, evs₁ ++ evs₂, ?_, ?_, ?_, ?_, ?_⟩
  · rw [hops₂, hops₁, List.append_assoc]
  · rw [hrwc₂, hrwc₁]
    simp [Nat.add_assoc]
  · rw [consecB_append, hc₁, ← hrwc₁, hc₂]
    rfl
  · rw [hev₂, hev₁, List.append_assoc]
  · simp only [evsOkB, List.all_eq_true, List.mem_append] at hok₁ hok₂ ⊢
    intro ev hev
    cases hev with
    | inl h =>
      have := hok₁ ev h
      rw [hops₂]
      exact evOkB_mono ev t.ops l₂ this
    | inr h => exact hok₂ ev h

theorem stepExt_pushOp (s : State) (rw : RW) (k : OpKind) :
    StepExt s (pushOp s rw k) := by
  refine ⟨[⟨s.rwc, rw, k, false⟩], [], by simp, by simp, ?_, by simp, rfl⟩
  simp [consecB]

theorem stepExt_pushOpReversible (s : State) (k : OpKind) :
    StepExt s (pushOpReversible s k) := by
  refine ⟨[⟨s.rwc, RW.WRITE, k, true⟩], [], by simp, by simp, ?_, by simp, rfl⟩
  simp [consecB]

theorem stepExt_stackRead (s : State) (slot value : Nat) :
    StepExt s (stackRead s slot value) := stepExt_pushOp s _ _

theorem stepExt_callContextRead (s : State) (cid : Nat)
    (f : CallContextField) (v : Nat) :
    StepExt s (callContextRead s cid f v) := stepExt_pushOp s _ _

theorem stepExt_memoryRead (s : State) (a v : Nat) :
    StepExt s (memoryRead s a v) := stepExt_pushOp s _ _

theorem stepExt_handleRestoreContext (s : State) :
    StepExt s (handleRestoreContext s) := stepExt_pushOp s _ _

theorem stepExt_callMemory (s : State) (m : List Nat) :
    StepExt s { s with callMemory := m } := stepExt_refl _

theorem stepExt_callerMemory (s : State) (m : List Nat) :
    StepExt s { s with callerMemory := m } := stepExt_refl _

theorem stepExt_handleReturn (s : State) (off len : Nat) :
    StepExt s (handleReturn s off len) := by
  unfold handleReturn
  split
  · exact stepExt_refl _
  · exact stepExt_refl _

theorem stepExt_handleCopy (s : State) (src : Source) (dst : Destination) :
    StepExt s (handleCopy s src dst) := by
  rw [handleCopy_eq]
  refine ⟨copyOpsAux s.rwc src.id dst.id src.offset dst.offset
      (memSlice s.callMemory src.offset (min src.length dst.length)),
    [copyEventOf s src dst], by simp, ?_, ?_, by simp, ?_⟩
  · simp [copyOpsAux_length]
  · exact consecB_copyOpsAux _ _ _ _ _ _
  · simp only [evsOkB, List.all_eq_true, List.mem_singleton]
    intro ev hev
    subst hev
    unfold evOkB
    cases hsl : memSlice s.callMemory src.offset (min src.length dst.length) with
    | nil => simp [copyEventOf, hsl]
    | cons b rest =>
      simp only [copyEventOf, hsl, List.map_cons, List.head?_cons]
      simp only [decide_eq_true_eq]
      simp [copyOpsAux]

theorem stepExt_handleCreate (s : State) (src : Source) :
    StepExt s (handleCreate s src).1 := by
  rw [handleCreate_eq]
  refine ⟨createOpsAux s.rwc src.id src.offset
      (memSlice s.callMemory src.offset src.length),
    [createEventOf s src], by simp, ?_, ?_, by simp, ?_⟩
  · simp [createOpsAux_length]
  · exact consecB_createOpsAux _ _ _ _
  · simp only [evsOkB, List.all_eq_true, List.mem_singleton]
    intro ev hev
    subst hev
    unfold evOkB
    cases hsl : memSlice s.callMemory src.offset src.length with
    | nil => simp [createEventOf, codeVec, hsl]
    | cons b rest =>
      simp only [createEventOf, codeVec, hsl, List.map_cons, List.head?_cons]
      simp only [decide_eq_true_eq]
      simp [createOpsAux]

theorem stepExt_caseB (call : Call) (s : State) : StepExt s (caseB call s) := by
  unfold caseB
  split
  · exact stepExt_callContextRead _ _ _ _
  · exact stepExt_refl _

theorem stepExt_caseC (call : Call) (s : State) : StepExt s (caseC call s) := by
  unfold caseC
  split
  · exact stepExt_handleRestoreContext _
  · exact stepExt_refl _

theorem stepExt_caseD (call : Call) (off len : Nat) (s : State) :
    StepExt s (caseD call off len s) := by
  unfold caseD
  split
  · dsimp only
    refine stepExt_trans (stepExt_callContextRead s call.call_id
      CallContextField.ReturnDataOffset call.return_data_offset) ?_
    refine stepExt_trans (stepExt_callContextRead _ call.call_id
      CallContextField.ReturnDataLength call.return_data_length) ?_
    split
    · exact stepExt_trans (stepExt_callerMemory _ _) (stepExt_handleCopy _ _ _)
    · exact stepExt_refl _
  · exact stepExt_refl _

theorem stepExt_returnRevertTail (off len : Nat) (s : State) :
    StepExt s (returnRevertTail off len s) := by
  unfold returnRevertTail
  refine stepExt_trans (stepExt_caseB s.call s) ?_
  refine stepExt_trans (stepExt_caseC s.call _) ?_
  refine stepExt_trans (stepExt_caseD s.call off len _) ?_
  exact stepExt_handleReturn _ off len

theorem run_stepExt (s : State) (step : GethStep) (s' : State)
    (h : genAssociatedOps s step = Except.ok s') : StepExt s s' := by
  unfold genAssociatedOps at h
  cases h0 : nthLast step.stack 0 with
  | error e => rw [h0] at h; simp at h
  | ok o =>
  cases h1 : nthLast step.stack 1 with
  | error e => rw [h0, h1] at h; simp at h
  | ok lw =>
  rw [h0, h1] at h
  simp only at h
  split at h
  next e heq => simp at h
  next s1 heq =>
  have hS1 : StepExt s s1 := by
    have hbase : StepExt s (stackRead (stackRead s (nthLastFilled step.stack 0) o)
        (nthLastFilled step.stack 1) lw) :=
      stepExt_trans (stepExt_stackRead _ _ _) (stepExt_stackRead _ _ _)
    split at heq
    · cases hOF : u64TryInto (wordLow64 o + wordLow64 lw) with
      | error e => rw [hOF] at heq; simp [Except.map] at heq
      | ok n =>
        rw [hOF] at heq
        simp only [Except.map] at heq
        cases heq
        exact stepExt_trans hbase (stepExt_callMemory _ _)
    · cases heq
      exact hbase
  split at h
  next e heq2 => simp at h
  next length heq2 =>
  split at h
  · split at h
    · simp at h
    · cases h
      exact stepExt_trans hS1 (stepExt_trans
        (stepExt_trans (stepExt_trans (stepExt_trans (stepExt_trans
          (stepExt_trans (stepExt_trans (stepExt_trans
            (stepExt_callContextRead _ _ _ _) (stepExt_memoryRead _ _ _))
            (stepExt_handleCreate _ _)) (stepExt_callContextRead _ _ _ _))
            (stepExt_callContextRead _ _ _ _))
            (stepExt_callContextRead _ _ _ _))
            (stepExt_callContextRead _ _ _ _))
            (stepExt_pushOpReversible _ _))
        (stepExt_returnRevertTail _ _ _))
  · cases h
    exact stepExt_trans hS1 (stepExt_trans
      (stepExt_callContextRead _ _ _ _) (stepExt_returnRevertTail _ _ _))

/-- The operations emitted by a run whose `length` operand is the zero
word: the two stack reads, the `IsSuccess` read, the Case B read or the
Case C restore bundle, and for Case D the two return-data reads. -/
def zeroLenOps (c : Call) (rwc0 slot o : Nat) : List Operation :=
  [⟨rwc0, RW.READ, OpKind.stackOp c.call_id slot o, false⟩,
   ⟨rwc0 + 1, RW.READ, OpKind.stackOp c.call_id (slot + 1) 0, false⟩,
   ⟨rwc0 + 2, RW.READ, OpKind.callContextOp c.call_id
     CallContextField.IsSuccess (boolToWord c.is_success), false⟩]
  ++ (if c.is_root then
      [⟨rwc0 + 3, RW.READ, OpKind.callContextOp c.call_id
        CallContextField.IsPersistent (boolToWord c.is_persistent), false⟩]
    else [⟨rwc0 + 3, RW.READ, OpKind.restoreContextOp c.call_id, false⟩])
  ++ (if !c.is_root && !c.is_create then
      [⟨rwc0 + 4, RW.READ, OpKind.callContextOp c.call_id
        CallContextField.ReturnDataOffset c.return_data_offset, false⟩,
       ⟨rwc0 + 5, RW.READ, OpKind.callContextOp c.call_id
        CallContextField.ReturnDataLength c.return_data_length, false⟩]
    else [])

theorem handleReturn_zero (s : State) (off : Nat) : handleReturn s off 0 = s := by
  unfold handleReturn
  simp

theorem caseD_zero (call : Call) (off : Nat) (s : State) :
    caseD call off 0 s =
    if !call.is_root && !call.is_create then
      callContextRead (callContextRead s call.call_id
        CallContextField.ReturnDataOffset call.return_data_offset)
        call.call_id CallContextField.ReturnDataLength call.return_data_length
    else s := by
  unfold caseD
  split
  · simp
  · rfl

theorem run_zero (s : State) (step : GethStep) (o : Nat) (rest : List Nat)
    (hstack : step.stack = o :: 0 :: rest) :
    genAssociatedOps s step = Except.ok { s with
      rwc := s.rwc + (zeroLenOps s.call s.rwc (nthLastFilled step.stack 0) o).length
      ops := s.ops ++ zeroLenOps s.call s.rwc (nthLastFilled step.stack 0) o } := by
  have hn0 : nthLast step.stack 0 = Except.ok o := by
    simp [nthLast, hstack]
  have hn1 : nthLast step.stack 1 = Except.ok 0 := by
    simp [nthLast, hstack]
  have hslot : nthLastFilled step.stack 1 = nthLastFilled step.stack 0 + 1 := by
    simp [nthLastFilled, hstack]
  have hguard : ∀ (a b : Bool), (a && b && decide (0 < 0)) = false := by
    intro a b
    simp
  unfold genAssociatedOps
  rw [hn0, hn1]
  simp only [ne_eq, not_true_eq_false, if_false]
  rw [show asUsize 0 = Except.ok 0 from rfl]
  simp only [hguard, Bool.false_eq_true, if_false, Except.ok.injEq]
  unfold returnRevertTail
  simp only [caseD_zero, handleReturn_zero, caseB, caseC, handleRestoreContext]
  rw [hslot]
  cases hr : s.call.is_root with
  | true =>
    simp [stackRead, callContextRead, pushOp, zeroLenOps, hr,
      List.append_assoc]
  | false =>
    cases hc : s.call.is_create with
    | true =>
      simp [stackRead, callContextRead, pushOp, zeroLenOps, hr, hc,
        List.append_assoc]
    | false =>
      simp [stackRead, callContextRead, pushOp, zeroLenOps, hr, hc,
        List.append_assoc]

/-- Closed form of a Case D run: a non-root, non-creation call with a
nonzero length operand and a positive copy length. -/
theorem run_caseD (s : State) (step : GethStep) (o lw : Nat) (rest : List Nat)
    (hstack : step.stack = o :: lw :: rest)
    (hroot : s.call.is_root = false) (hcreate : s.call.is_create = false)
    (hlw0 : lw ≠ 0) (hlw : lw < 2 ^ 64)
    (hsum : wordLow64 o + wordLow64 lw < 2 ^ 64)
    (hcl : 0 < min s.call.return_data_length lw) :
    genAssociatedOps s step = Except.ok { s with
      rwc := s.rwc + 6 + 2 * (memSlice
        (extendAtLeast s.callMemory (wordLow64 o + wordLow64 lw))
        (wordLow64 o) (min s.call.return_data_length lw)).length
      callMemory := extendAtLeast s.callMemory (wordLow64 o + wordLow64 lw)
      callerMemory := writeSlice s.callerMemory s.call.return_data_offset
        (memSlice (extendAtLeast s.callMemory (wordLow64 o + wordLow64 lw))
          (wordLow64 o) (min s.call.return_data_length lw))
      ops := s.ops ++
        [⟨s.rwc, RW.READ, OpKind.stackOp s.call.call_id
            (nthLastFilled step.stack 0) o, false⟩,
         ⟨s.rwc + 1, RW.READ, OpKind.stackOp s.call.call_id
            (nthLastFilled step.stack 1) lw, false⟩,
         ⟨s.rwc + 2, RW.READ, OpKind.callContextOp s.call.call_id
            CallContextField.IsSuccess (boolToWord s.call.is_success), false⟩,
         ⟨s.rwc + 3, RW.READ, OpKind.restoreContextOp s.call.call_id, false⟩,
         ⟨s.rwc + 4, RW.READ, OpKind.callContextOp s.call.call_id
            CallContextField.ReturnDataOffset s.call.return_data_offset, false⟩,
         ⟨s.rwc + 5, RW.READ, OpKind.callContextOp s.call.call_id
            CallContextField.ReturnDataLength s.call.return_data_length, false⟩]
        ++ copyOpsAux (s.rwc + 6) s.call.call_id s.call.caller_id
          (wordLow64 o) s.call.return_data_offset
          (memSlice (extendAtLeast s.callMemory (wordLow64 o + wordLow64 lw))
            (wordLow64 o) (min s.call.return_data_length lw))
      copyEvents := s.copyEvents ++
        [{ rw_counter_start := s.rwc + 6
           src_type := CopyDataType.Memory
           src_id := NumberOrHash.Number s.call.call_id
           src_addr := wordLow64 o
           src_addr_end := wordLow64 o + lw
           dst_type := CopyDataType.Memory
           dst_id := NumberOrHash.Number s.call.caller_id
           dst_addr := s.call.return_data_offset
           log_id := none
           bytes := (memSlice
             (extendAtLeast s.callMemory (wordLow64 o + wordLow64 lw))
             (wordLow64 o) (min s.call.return_data_length lw)).map
               (fun b => (b, false)) }] } := by
  have hn0 : nthLast step.stack 0 = Except.ok o := by
    simp [nthLast, hstack]
  have hn1 : nthLast step.stack 1 = Except.ok lw := by
    simp [nthLast, hstack]
  unfold genAssociatedOps
  rw [hn0, hn1]
  simp only [ne_eq, hlw0, not_false_eq_true, if_true, u64TryInto, hsum,
    if_pos, Except.map, asUsize, hlw]
  simp only [pushOp_call, stackRead, callContextRead, pushOp_callMemory]
  simp only [hcreate, Bool.false_and, Bool.false_eq_true, if_false]
  unfold returnRevertTail caseB caseC caseD
  simp only [pushOp_call, hroot, Bool.not_false, Bool.and_self, if_true,
    Bool.false_eq_true, if_false, if_true, hcl, if_pos, handleRestoreContext]
  rw [handleCopy_eq]
  unfold handleReturn
  simp only [callContextRead, pushOp_call, hcreate, Bool.false_and,
    Bool.false_eq_true, if_false, Except.ok.injEq, false_and, and_false]
  simp [pushOp, callContextRead, stackRead, handleRestoreContext,
    copyEventOf, List.append_assoc, Nat.min_comm lw, hcreate]

/-- A Case A run whose first deployed byte is the EIP-3541 banned byte
aborts with the internal-consistency fault. -/
theorem run_caseA_err (s : State) (step : GethStep) (o lw : Nat)
    (rest : List Nat) (hstack : step.stack = o :: lw :: rest)
    (hcreate : s.call.is_create = true) (hsucc : s.call.is_success = true)
    (hlw0 : lw ≠ 0) (hlw : lw < 2 ^ 64)
    (hsum : wordLow64 o + wordLow64 lw < 2 ^ 64)
    (hbyte : (extendAtLeast s.callMemory
      (wordLow64 o + wordLow64 lw)).getD (wordLow64 o) 0 =
      INVALID_INIT_CODE_FIRST_BYTE) :
    genAssociatedOps s step = Except.error Err.internalInvariant := by
  have hn0 : nthLast step.stack 0 = Except.ok o := by
    simp [nthLast, hstack]
  have hn1 : nthLast step.stack 1 = Except.ok lw := by
    simp [nthLast, hstack]
  have h0lw : 0 < lw := Nat.pos_of_ne_zero hlw0
  unfold genAssociatedOps
  rw [hn0, hn1]
  simp only [ne_eq, hlw0, not_false_eq_true, if_true, u64TryInto, hsum,
    if_pos, Except.map, asUsize, hlw]
  simp only [stackRead, callContextRead, pushOp_call, pushOp_callMemory]
  simp only [hcreate, hsucc, h0lw, decide_True, Bool.and_self, if_true,
    decide_eq_true_eq, and_true, true_and, and_self, if_pos]
  simp
  simpa using hbyte

/-- Closed form of a Case A run whose first deployed byte passes the
EIP-3541 check: the Case A records followed by the shared tail. -/
theorem run_caseA_ok (s : State) (step : GethStep) (o lw : Nat)
    (rest : List Nat) (hstack : step.stack = o :: lw :: rest)
    (hcreate : s.call.is_create = true) (hsucc : s.call.is_success = true)
    (hlw0 : lw ≠ 0) (hlw : lw < 2 ^ 64)
    (hsum : wordLow64 o + wordLow64 lw < 2 ^ 64)
    (hbyte : (extendAtLeast s.callMemory
      (wordLow64 o + wordLow64 lw)).getD (wordLow64 o) 0 ≠
      INVALID_INIT_CODE_FIRST_BYTE) :
    genAssociatedOps s step = Except.ok (returnRevertTail (wordLow64 o) lw
      { s with
        rwc := s.rwc + 9 + (memSlice
          (extendAtLeast s.callMemory (wordLow64 o + wordLow64 lw))
          (wordLow64 o) lw).length
        callMemory := extendAtLeast s.callMemory (wordLow64 o + wordLow64 lw)
        ops := s.ops ++
          [⟨s.rwc, RW.READ, OpKind.stackOp s.call.call_id
              (nthLastFilled step.stack 0) o, false⟩,
           ⟨s.rwc + 1, RW.READ, OpKind.stackOp s.call.call_id
              (nthLastFilled step.stack 1) lw, false⟩,
           ⟨s.rwc + 2, RW.READ, OpKind.callContextOp s.call.call_id
              CallContextField.IsSuccess (boolToWord s.call.is_success), false⟩,
           ⟨s.rwc + 3, RW.READ, OpKind.memoryOp s.call.call_id (wordLow64 o)
              ((extendAtLeast s.callMemory
                (wordLow64 o + wordLow64 lw)).getD (wordLow64 o) 0), false⟩]
          ++ createOpsAux (s.rwc + 4) s.call.call_id (wordLow64 o)
            (memSlice (extendAtLeast s.callMemory
              (wordLow64 o + wordLow64 lw)) (wordLow64 o) lw)
          ++ [⟨s.rwc + 4 + (memSlice
                (extendAtLeast s.callMemory (wordLow64 o + wordLow64 lw))
                (wordLow64 o) lw).length, RW.READ,
               OpKind.callContextOp s.call.call_id CallContextField.CallerId
                 s.call.caller_id, false⟩,
              ⟨s.rwc + 5 + (memSlice
                (extendAtLeast s.callMemory (wordLow64 o + wordLow64 lw))
                (wordLow64 o) lw).length, RW.READ,
               OpKind.callContextOp s.call.call_id
                 CallContextField.CalleeAddress s.call.address, false⟩,
              ⟨s.rwc + 6 + (memSlice
                (extendAtLeast s.callMemory (wordLow64 o + wordLow64 lw))
                (wordLow64 o) lw).length, RW.READ,
               OpKind.callContextOp s.call.call_id
                 CallContextField.RwCounterEndOfReversion
                 s.call.rw_counter_end_of_reversion, false⟩,
              ⟨s.rwc + 7 + (memSlice
                (extendAtLeast s.callMemory (wordLow64 o + wordLow64 lw))
                (wordLow64 o) lw).length, RW.READ,
               OpKind.callContextOp s.call.call_id
                 CallContextField.IsPersistent
                 (boolToWord s.call.is_persistent), false⟩,
              ⟨s.rwc + 8 + (memSlice
                (extendAtLeast s.callMemory (wordLow64 o + wordLow64 lw))
                (wordLow64 o) lw).length, RW.WRITE,
               OpKind.accountOp s.call.address AccountField.CodeHash
                 (codeHash (memSlice (extendAtLeast s.callMemory
                   (wordLow64 o + wordLow64 lw)) (wordLow64 o) lw))
                 emptyCodeHash, true⟩]
        copyEvents := s.copyEvents ++
          [{ rw_counter_start := s.rwc + 4
             src_type := CopyDataType.Memory
             src_id := NumberOrHash.Number s.call.call_id
             src_addr := wordLow64 o
             src_addr_end := wordLow64 o + lw
             dst_type := CopyDataType.Bytecode
             dst_id := NumberOrHash.Hash (codeHash (memSlice
               (extendAtLeast s.callMemory (wordLow64 o + wordLow64 lw))
               (wordLow64 o) lw))
             dst_addr := 0
             log_id := none
             bytes := codeVec (memSlice (extendAtLeast s.callMemory
               (wordLow64 o + wordLow64 lw)) (wordLow64 o) lw) }] }) := by
  have hn0 : nthLast step.stack 0 = Except.ok o := by
    simp [nthLast, hstack]
  have hn1 : nthLast step.stack 1 = Except.ok lw := by
    simp [nthLast, hstack]
  have h0lw : 0 < lw := Nat.pos_of_ne_zero hlw0
  unfold genAssociatedOps
  rw [hn0, hn1]
  simp only [ne_eq, hlw0, not_false_eq_true, if_true, u64TryInto, hsum,
    if_pos, Except.map, asUsize, hlw]
  simp only [stackRead, callContextRead, pushOp_call, pushOp_callMemory]
  simp only [hcreate, hsucc, h0lw, decide_True, Bool.and_self, if_true,
    decide_eq_true_eq, and_true, true_and, and_self, if_pos]
  split_ifs with hEF
  · exact absurd hEF hbyte
  simp only [Except.ok.injEq]
  rw [handleCreate_eq]
  congr 1
  simp [pushOp, memoryRead, createEventOf, pushOpReversible, callContextRead,
    hcreate, hsucc, List.append_assoc, Nat.add_assoc]
  all_goals omega

/-! ### Support for the claim statements -/

/-- The operations of a handler result, empty on failure. -/
def opsOf : Except Err State → List Operation
  | Except.ok s => s.ops
  | Except.error _ => []

/-- Whether an operation kind is a memory-byte access. -/
def opIsMemory : OpKind → Bool
  | OpKind.memoryOp _ _ _ => true
  | _ => false

/-- Whether an operation kind is an account-field access. -/
def opIsAccount : OpKind → Bool
  | OpKind.accountOp _ _ _ _ => true
  | _ => false

/-- Whether `pat` is an exact prefix of `l`. -/
def opsStartWith : List Operation → List Operation → Bool
  | _, [] => true
  | [], _ :: _ => false
  | a :: l, b :: m => decide (a = b) && opsStartWith l m

/-- Whether `pat` occurs as a contiguous run inside `l`. -/
def hasRun : List Operation → List Operation → Bool
  | [], pat => opsStartWith [] pat
  | a :: t, pat => opsStartWith (a :: t) pat || hasRun t pat

theorem opsStartWith_append_self : ∀ (pat Y : List Operation),
    opsStartWith (pat ++ Y) pat = true := by
  intro pat
  induction pat with
  | nil => intro Y; simp [opsStartWith]
  | cons p t ih =>
    intro Y
    simp [opsStartWith, ih]

theorem hasRun_of_startsWith : ∀ (l pat : List Operation),
    opsStartWith l pat = true → hasRun l pat = true := by
  intro l pat h
  cases l with
  | nil => simpa [hasRun] using h
  | cons a t => simp [hasRun, h]

theorem hasRun_cons (x : Operation) (l pat : List Operation)
    (h : hasRun l pat = true) : hasRun (x :: l) pat = true := by
  simp [hasRun, h]

theorem hasRun_of_append (X pat Y : List Operation) :
    hasRun (X ++ (pat ++ Y)) pat = true := by
  induction X with
  | nil => exact hasRun_of_startsWith _ _ (by simpa using opsStartWith_append_self pat Y)
  | cons x t ih => simpa using hasRun_cons x _ _ (by simpa using ih)

theorem memSlice_head (m : List Nat) (a len : Nat) (h0 : 0 < len)
    (ha : a < m.length) : (memSlice m a len).head? = some (m.getD a 0) := by
  unfold memSlice
  cases len with
  | zero => omega
  | succ k =>
    rw [List.drop_eq_getElem_cons ha, List.take_succ_cons, List.head?_cons]
    simp [List.getD, List.getElem?_eq_getElem ha]

theorem createOpsAux_all_read (sid : Nat) : ∀ (bs : List Nat)
    (start soff : Nat),
    (createOpsAux start sid soff bs).all
      (fun op => decide (op.rw = RW.READ)) = true := by
  intro bs
  induction bs with
  | nil => intro start soff; rfl
  | cons b t ih =>
    intro start soff
    simp [createOpsAux, ih]

theorem zeroLenOps_getElem?_pos (c : Call) (rwc0 slot : Nat) (o₁ o₂ : Nat) :
    ∀ j, 0 < j →
    (zeroLenOps c rwc0 slot o₁)[j]? = (zeroLenOps c rwc0 slot o₂)[j]? := by
  intro j hj
  cases j with
  | zero => omega
  | succ k => simp [zeroLenOps]

theorem zeroLenOps_length_eq (c : Call) (rwc0 slot : Nat) (o₁ o₂ : Nat) :
    (zeroLenOps c rwc0 slot o₁).length = (zeroLenOps c rwc0 slot o₂).length := by
  simp [zeroLenOps]

/-! ### Concrete inputs used by the witnesses -/

/-- A nested message call (Case D demo). -/
def demoCallD : Call :=
  { call_id := 7, caller_id := 3, address := 161, is_root := false,
    is_create := false, is_success := true, is_persistent := true,
    rw_counter_end_of_reversion := 0, return_data_offset := 2,
    return_data_length := 3 }

/-- Builder state for the Case D demo. -/
def demoStateD : State :=
  { rwc := 10, call := demoCallD, callMemory := [1, 2, 3, 4, 5, 6],
    callerMemory := [9, 9, 9, 9, 9, 9, 9], ops := [], copyEvents := [],
    codeDB := [] }

/-- Trace snapshot for the Case D demo: offset 1, length 4. -/
def demoStepD : GethStep := { stack := [1, 4, 99] }

/-- A successful root creation call (Case A demo). -/
def demoCallA : Call :=
  { call_id := 5, caller_id := 1, address := 77, is_root := true,
    is_create := true, is_success := true, is_persistent := true,
    rw_counter_end_of_reversion := 0, return_data_offset := 0,
    return_data_length := 0 }

/-- Builder state for the Case A demo. -/
def demoStateA : State :=
  { rwc := 4, call := demoCallA, callMemory := [96, 0, 243],
    callerMemory := [], ops := [], copyEvents := [], codeDB := [] }

/-- Trace snapshot for the Case A demo: offset 0, length 3. -/
def demoStepA : GethStep := { stack := [0, 3, 8] }

/-- The state extracted from a successful handler result, with a default
on failure. -/
def okOr (e : Except Err State) (d : State) : State :=
  match e with
  | Except.ok s => s
  | Except.error _ => d

/-- The result of the Case D demo run. -/
def demoRunD : State := okOr (genAssociatedOps demoStateD demoStepD) demoStateD

/-- The result of the Case A demo run. -/
def demoRunA : State := okOr (genAssociatedOps demoStateA demoStepA) demoStateA

/-- C3: an invocation of the copy recorder `handleCopy` over source and
destination regions appends, for each `i` below
`min source.length destination.length` in increasing order, one READ
operation at `(source.id, source.offset + i)` and one WRITE operation at
`(destination.id, destination.offset + i)` carrying the same byte value
read from the (already copied) current call memory, at consecutive
sequence numbers; it appends exactly one memory-to-memory copy event
whose starting sequence number equals the sequence number of the first
emitted operation. -/
theorem C3_handleCopy_spec (s : State) (src : Source) (dst : Destination)
    (hin : src.offset + min src.length dst.length ≤ s.callMemory.length) :
    handleCopy s src dst = { s with
      rwc := s.rwc + 2 * min src.length dst.length
      ops := s.ops ++ copyOpsAux s.rwc src.id dst.id src.offset dst.offset
        (memSlice s.callMemory src.offset (min src.length dst.length))
      copyEvents := s.copyEvents ++ [copyEventOf s src dst] } ∧
    (copyOpsAux s.rwc src.id dst.id src.offset dst.offset
      (memSlice s.callMemory src.offset (min src.length dst.length))).length
      = 2 * min src.length dst.length ∧
    (copyEventOf s src dst).rw_counter_start = s.rwc ∧
    (copyEventOf s src dst).src_type = CopyDataType.Memory ∧
    (copyEventOf s src dst).dst_type = CopyDataType.Memory ∧
    (0 < min src.length dst.length →
      (copyOpsAux s.rwc src.id dst.id src.offset dst.offset
        (memSlice s.callMemory src.offset (min src.length dst.length))).head?
        = some ⟨s.rwc, RW.READ, OpKind.memoryOp src.id src.offset
            (s.callMemory.getD src.offset 0), false⟩) := by
  have hlen : (memSlice s.callMemory src.offset
      (min src.length dst.length)).length = min src.length dst.length :=
    memSlice_length_of_le _ _ _ hin
  refine ⟨?_, ?_, rfl, rfl, rfl, ?_⟩
  · rw [handleCopy_eq, hlen]
  · rw [copyOpsAux_length, hlen]
  · intro hcl
    have ha : src.offset < s.callMemory.length := by omega
    have hh := memSlice_head s.callMemory src.offset
      (min src.length dst.length) hcl ha
    cases hsl : memSlice s.callMemory src.offset
        (min src.length dst.length) with
    | nil => rw [hsl] at hh; simp at hh
    | cons b rest =>
      rw [hsl] at hh
      simp only [List.head?_cons, Option.some.injEq] at hh
      simp [copyOpsAux, hh]

/-- Witness for C3 at the Case D demo state. -/
theorem C3_handleCopy_spec_witness :
    handleCopy demoStateD ⟨7, 1, 4⟩ ⟨3, 2, 3⟩ = { demoStateD with
      rwc := demoStateD.rwc + 2 * min (4 : Nat) 3
      ops := demoStateD.ops ++ copyOpsAux demoStateD.rwc 7 3 1 2
        (memSlice demoStateD.callMemory 1 (min 4 3))
      copyEvents := demoStateD.copyEvents ++
        [copyEventOf demoStateD ⟨7, 1, 4⟩ ⟨3, 2, 3⟩] } ∧
    (copyOpsAux demoStateD.rwc 7 3 1 2
      (memSlice demoStateD.callMemory 1 (min 4 3))).length = 2 * min 4 3 ∧
    (copyEventOf demoStateD ⟨7, 1, 4⟩ ⟨3, 2, 3⟩).rw_counter_start
      = demoStateD.rwc ∧
    (copyEventOf demoStateD ⟨7, 1, 4⟩ ⟨3, 2, 3⟩).src_type
      = CopyDataType.Memory ∧
    (copyEventOf demoStateD ⟨7, 1, 4⟩ ⟨3, 2, 3⟩).dst_type
      = CopyDataType.Memory ∧
    (0 < min (4 : Nat) 3 →
      (copyOpsAux demoStateD.rwc 7 3 1 2
        (memSlice demoStateD.callMemory 1 (min 4 3))).head?
        = some ⟨demoStateD.rwc, RW.READ, OpKind.memoryOp 7 1
            (demoStateD.callMemory.getD 1 0), false⟩) :=
  C3_handleCopy_spec demoStateD ⟨7, 1, 4⟩ ⟨3, 2, 3⟩ (by decide)

/-- C4: an invocation of the creation recorder `handleCreate` over a
source region emits exactly one READ operation per byte of the region at
increasing offsets and consecutive sequence numbers, with no paired
writes; it appends exactly one memory-to-bytecode copy event whose
destination is identified by the content hash of those bytes with
destination address fixed at 0, and returns that hash while leaving the
Code Store untouched. -/
theorem C4_handleCreate_spec (s : State) (src : Source)
    (hin : src.offset + src.length ≤ s.callMemory.length) :
    (handleCreate s src).2
      = codeHash (memSlice s.callMemory src.offset src.length) ∧
    (handleCreate s src).1 = { s with
      rwc := s.rwc + src.length
      ops := s.ops ++ createOpsAux s.rwc src.id src.offset
        (memSlice s.callMemory src.offset src.length)
      copyEvents := s.copyEvents ++ [createEventOf s src] } ∧
    ((handleCreate s src).1).codeDB = s.codeDB ∧
    (memSlice s.callMemory src.offset src.length).length = src.length ∧
    (createOpsAux s.rwc src.id src.offset
      (memSlice s.callMemory src.offset src.length)).length = src.length ∧
    (createOpsAux s.rwc src.id src.offset
      (memSlice s.callMemory src.offset src.length)).all
        (fun op => decide (op.rw = RW.READ)) = true ∧
    (createEventOf s src).src_type = CopyDataType.Memory ∧
    (createEventOf s src).dst_type = CopyDataType.Bytecode ∧
    (createEventOf s src).dst_id = NumberOrHash.Hash
      (codeHash (memSlice s.callMemory src.offset src.length)) ∧
    (createEventOf s src).dst_addr = 0 := by
  have hlen : (memSlice s.callMemory src.offset src.length).length
      = src.length := memSlice_length_of_le _ _ _ hin
  refine ⟨?_, ?_, ?_, hlen, ?_, createOpsAux_all_read _ _ _ _, rfl, rfl, rfl,
    rfl⟩
  · rw [handleCreate_eq]
  · rw [handleCreate_eq, hlen]
  · rw [handleCreate_eq]
  · rw [createOpsAux_length, hlen]

/-- Witness for C4 at the Case A demo state. -/
theorem C4_handleCreate_spec_witness :
    (handleCreate demoStateA ⟨5, 0, 3⟩).2
      = codeHash (memSlice demoStateA.callMemory 0 3) ∧
    (handleCreate demoStateA ⟨5, 0, 3⟩).1 = { demoStateA with
      rwc := demoStateA.rwc + 3
      ops := demoStateA.ops ++ createOpsAux demoStateA.rwc 5 0
        (memSlice demoStateA.callMemory 0 3)
      copyEvents := demoStateA.copyEvents ++
        [createEventOf demoStateA ⟨5, 0, 3⟩] } ∧
    ((handleCreate demoStateA ⟨5, 0, 3⟩).1).codeDB = demoStateA.codeDB ∧
    (memSlice demoStateA.callMemory 0 3).length = 3 ∧
    (createOpsAux demoStateA.rwc 5 0
      (memSlice demoStateA.callMemory 0 3)).length = 3 ∧
    (createOpsAux demoStateA.rwc 5 0
      (memSlice demoStateA.callMemory 0 3)).all
        (fun op => decide (op.rw = RW.READ)) = true ∧
    (createEventOf demoStateA ⟨5, 0, 3⟩).src_type = CopyDataType.Memory ∧
    (createEventOf demoStateA ⟨5, 0, 3⟩).dst_type = CopyDataType.Bytecode ∧
    (createEventOf demoStateA ⟨5, 0, 3⟩).dst_id = NumberOrHash.Hash
      (codeHash (memSlice demoStateA.callMemory 0 3)) ∧
    (createEventOf demoStateA ⟨5, 0, 3⟩).dst_addr = 0 :=
  C4_handleCreate_spec demoStateA ⟨5, 0, 3⟩ (by decide)

/-- C7: across one successful handler invocation, the recorded operation
log is extended in place: the appended operations carry consecutive
sequence numbers continuing from the counter's prior value, the counter
advances by exactly the number of appended operations, and every appended
copy event's starting sequence number is carried by its first per-byte
READ operation in the log. -/
theorem C7_counter_discipline (s : State) (step : GethStep) (s' : State)
    (h : genAssociatedOps s step = Except.ok s') :
    s'.ops.take s.ops.length = s.ops ∧
    consecB s.rwc (s'.ops.drop s.ops.length) = true ∧
    s'.rwc = s.rwc + (s'.ops.drop s.ops.length).length ∧
    s'.copyEvents.take s.copyEvents.length = s.copyEvents ∧
    evsOkB (s'.copyEvents.drop s.copyEvents.length) s'.ops = true := by
  obtain ⟨l, evs, hops, hrwc, hc, hev, hok⟩ := run_stepExt s step s' h
  refine ⟨?_, ?_, ?_, ?_, ?_⟩
  · rw [hops, List.take_left]
  · rw [hops, List.drop_left]
    exact hc
  · rw [hops, List.drop_left]
    exact hrwc
  · rw [hev, List.take_left]
  · rw [hev, List.drop_left]
    exact hok

/-- Witness for C7 at the Case D demo run. -/
theorem C7_counter_discipline_witness :
    demoRunD.ops.take demoStateD.ops.length = demoStateD.ops ∧
    consecB demoStateD.rwc (demoRunD.ops.drop demoStateD.ops.length)
      = true ∧
    demoRunD.rwc = demoStateD.rwc +
      (demoRunD.ops.drop demoStateD.ops.length).length ∧
    demoRunD.copyEvents.take demoStateD.copyEvents.length
      = demoStateD.copyEvents ∧
    evsOkB (demoRunD.copyEvents.drop demoStateD.copyEvents.length)
      demoRunD.ops = true :=
  C7_counter_discipline demoStateD demoStepD demoRunD (by rfl)

/-! ### Memory-projection lemmas through the phases -/

theorem handleCopy_callMemory (s : State) (src : Source) (dst : Destination) :
    (handleCopy s src dst).callMemory = s.callMemory := by
  rw [handleCopy_eq]

theorem handleCreate_callMemory (s : State) (src : Source) :
    ((handleCreate s src).1).callMemory = s.callMemory := by
  rw [handleCreate_eq]

theorem caseB_callMemory (call : Call) (s : State) :
    (caseB call s).callMemory = s.callMemory := by
  unfold caseB
  split <;> simp [callContextRead]

theorem caseC_callMemory (call : Call) (s : State) :
    (caseC call s).callMemory = s.callMemory := by
  unfold caseC
  split <;> simp [handleRestoreContext]

theorem caseD_callMemory (call : Call) (off len : Nat) (s : State) :
    (caseD call off len s).callMemory = s.callMemory := by
  unfold caseD
  split
  · dsimp only
    split
    · rw [handleCopy_callMemory]
      simp [callContextRead]
    · simp [callContextRead]
  · rfl

theorem handleReturn_callMemory (s : State) (off len : Nat) :
    (handleReturn s off len).callMemory = s.callMemory := by
  unfold handleReturn
  split <;> rfl

theorem returnRevertTail_callMemory (off len : Nat) (s : State) :
    (returnRevertTail off len s).callMemory = s.callMemory := by
  unfold returnRevertTail
  rw [handleReturn_callMemory, caseD_callMemory, caseC_callMemory,
    caseB_callMemory]

/-- Through a successful run with a nonzero length word, the current
call's memory buffer ends up extended to cover `offset + length`. -/
theorem run_callMemory (s : State) (step : GethStep) (o lw : Nat)
    (rest : List Nat) (hstack : step.stack = o :: lw :: rest)
    (hlw0 : lw ≠ 0) (s' : State)
    (h : genAssociatedOps s step = Except.ok s') :
    s'.callMemory = extendAtLeast s.callMemory
      (wordLow64 o + wordLow64 lw) := by
  have hn0 : nthLast step.stack 0 = Except.ok o := by
    simp [nthLast, hstack]
  have hn1 : nthLast step.stack 1 = Except.ok lw := by
    simp [nthLast, hstack]
  unfold genAssociatedOps at h
  rw [hn0, hn1] at h
  simp only at h
  split at h
  next e heq => simp at h
  next s1 heq =>
  have hs1 : s1.callMemory = extendAtLeast s.callMemory
      (wordLow64 o + wordLow64 lw) := by
    rw [if_pos hlw0] at heq
    cases hOF : u64TryInto (wordLow64 o + wordLow64 lw) with
    | error e => rw [hOF] at heq; simp [Except.map] at heq
    | ok n =>
      have hn : n = wordLow64 o + wordLow64 lw := by
        unfold u64TryInto at hOF
        split at hOF
        · cases hOF; rfl
        · simp at hOF
      rw [hOF] at heq
      simp only [Except.map] at heq
      cases heq
      simp [stackRead, hn]
  split at h
  next e heq2 => simp at h
  next length heq2 =>
  split at h
  · split at h
    · simp at h
    · cases h
      rw [returnRevertTail_callMemory]
      simp [callContextRead, memoryRead, handleCreate_callMemory, hs1]
  · cases h
    rw [returnRevertTail_callMemory]
    simp [callContextRead, hs1]

/-- C5: a handler invocation with a nonzero length operand extends the
current call's memory buffer so it covers at least `offset + length`
bytes (both truncated to the native width, as the code does); the buffer
never shrinks, its old contents are preserved, and the added bytes are
zero. -/
theorem C5_memory_extension (s : State) (step : GethStep) (o lw : Nat)
    (rest : List Nat) (hstack : step.stack = o :: lw :: rest)
    (hlw0 : lw ≠ 0) (s' : State)
    (h : genAssociatedOps s step = Except.ok s') :
    s'.callMemory = extendAtLeast s.callMemory
      (wordLow64 o + wordLow64 lw) ∧
    s.callMemory.length ≤ s'.callMemory.length ∧
    wordLow64 o + wordLow64 lw ≤ s'.callMemory.length ∧
    s'.callMemory.take s.callMemory.length = s.callMemory ∧
    (s'.callMemory.drop s.callMemory.length).all (fun b => b == 0)
      = true := by
  have hm := run_callMemory s step o lw rest hstack hlw0 s' h
  refine ⟨hm, ?_, ?_, ?_, ?_⟩
  · rw [hm, extendAtLeast_length]
    omega
  · rw [hm, extendAtLeast_length]
    omega
  · rw [hm]
    exact extendAtLeast_take _ _
  · rw [hm]
    exact extendAtLeast_drop_zero _ _

/-- Witness for C5 at the Case D demo run. -/
theorem C5_memory_extension_witness :
    demoRunD.callMemory = extendAtLeast demoStateD.callMemory
      (wordLow64 1 + wordLow64 4) ∧
    demoStateD.callMemory.length ≤ demoRunD.callMemory.length ∧
    wordLow64 1 + wordLow64 4 ≤ demoRunD.callMemory.length ∧
    demoRunD.callMemory.take demoStateD.callMemory.length
      = demoStateD.callMemory ∧
    (demoRunD.callMemory.drop demoStateD.callMemory.length).all
      (fun b => b == 0) = true :=
  C5_memory_extension demoStateD demoStepD 1 4 [99] rfl (by decide)
    demoRunD (by rfl)

/-- C6: a handler invocation whose length operand is the zero word, for
any call kind, performs no memory extension, leaves both memory buffers
and the Code Store unchanged, emits no copy event, and emits no
memory-byte operation and no account (code-hash) write. -/
theorem C6_zero_length (s : State) (step : GethStep) (o : Nat)
    (rest : List Nat) (s' : State) (hstack : step.stack = o :: 0 :: rest)
    (h : genAssociatedOps s step = Except.ok s') :
    s'.callMemory = s.callMemory ∧ s'.callerMemory = s.callerMemory ∧
    s'.copyEvents = s.copyEvents ∧ s'.codeDB = s.codeDB ∧
    (s'.ops.drop s.ops.length).all
      (fun op => !opIsMemory op.op && !opIsAccount op.op) = true := by
  rw [run_zero s step o rest hstack] at h
  injection h with h2
  subst h2
  refine ⟨rfl, rfl, rfl, rfl, ?_⟩
  show ((s.ops ++ zeroLenOps s.call s.rwc (nthLastFilled step.stack 0) o).drop
    s.ops.length).all _ = true
  rw [List.drop_left]
  cases hr : s.call.is_root <;> cases hc : s.call.is_create <;>
    simp [zeroLenOps, opIsMemory, opIsAccount, hr, hc]

/-- A root creation zero-length demo step. -/
def demoStepZ : GethStep := { stack := [5, 0, 42] }

/-- The result of the zero-length demo run on the Case A state. -/
def demoRunZ : State := okOr (genAssociatedOps demoStateA demoStepZ) demoStateA

/-- Witness for C6 at the zero-length demo run. -/
theorem C6_zero_length_witness :
    demoRunZ.callMemory = demoStateA.callMemory ∧
    demoRunZ.callerMemory = demoStateA.callerMemory ∧
    demoRunZ.copyEvents = demoStateA.copyEvents ∧
    demoRunZ.codeDB = demoStateA.codeDB ∧
    (demoRunZ.ops.drop demoStateA.ops.length).all
      (fun op => !opIsMemory op.op && !opIsAccount op.op) = true :=
  C6_zero_length demoStateA demoStepZ 5 [42] demoRunZ rfl (by rfl)

/-- C9: two handler invocations over identical states whose trace inputs
differ only in the offset stack word, with length zero, produce the same
counter, memories, copy events and Code Store, and operation logs of the
same length that agree everywhere except at the recorded stack read of
the offset, which carries each run's own offset word. -/
theorem C9_offset_high_bits (s : State) (step₁ step₂ : GethStep)
    (o₁ o₂ : Nat) (rest : List Nat)
    (h₁s : step₁.stack = o₁ :: 0 :: rest)
    (h₂s : step₂.stack = o₂ :: 0 :: rest)
    (hlow : o₁ % 2 ^ 64 = o₂ % 2 ^ 64) (s₁ s₂ : State)
    (h₁ : genAssociatedOps s step₁ = Except.ok s₁)
    (h₂ : genAssociatedOps s step₂ = Except.ok s₂) :
    s₁.rwc = s₂.rwc ∧ s₁.call = s₂.call ∧ s₁.callMemory = s₂.callMemory ∧
    s₁.callerMemory = s₂.callerMemory ∧ s₁.copyEvents = s₂.copyEvents ∧
    s₁.codeDB = s₂.codeDB ∧ s₁.ops.length = s₂.ops.length ∧
    s₁.ops[s.ops.length]? = some ⟨s.rwc, RW.READ,
      OpKind.stackOp s.call.call_id (nthLastFilled step₁.stack 0) o₁,
      false⟩ ∧
    s₂.ops[s.ops.length]? = some ⟨s.rwc, RW.READ,
      OpKind.stackOp s.call.call_id (nthLastFilled step₂.stack 0) o₂,
      false⟩ ∧
    (∀ j, j ≠ s.ops.length → s₁.ops[j]? = s₂.ops[j]?) := by
  have hslot : nthLastFilled step₂.stack 0 = nthLastFilled step₁.stack 0 := by
    simp [nthLastFilled, h₁s, h₂s]
  rw [run_zero s step₁ o₁ rest h₁s] at h₁
  rw [run_zero s step₂ o₂ rest h₂s] at h₂
  injection h₁ with e₁
  injection h₂ with e₂
  subst e₁
  subst e₂
  rw [hslot]
  refine ⟨?_, rfl, rfl, rfl, rfl, rfl, ?_, ?_, ?_, ?_⟩
  · show s.rwc + _ = s.rwc + _
    rw [zeroLenOps_length_eq s.call s.rwc (nthLastFilled step₁.stack 0) o₂ o₁]
  · show (s.ops ++ _).length = (s.ops ++ _).length
    rw [List.length_append, List.length_append,
      zeroLenOps_length_eq s.call s.rwc (nthLastFilled step₁.stack 0) o₂ o₁]
  · show (s.ops ++ zeroLenOps s.call s.rwc (nthLastFilled step₁.stack 0)
      o₁)[s.ops.length]? = _
    rw [List.getElem?_append_right (Nat.le_refl _)]
    simp [zeroLenOps]
  · show (s.ops ++ zeroLenOps s.call s.rwc (nthLastFilled step₁.stack 0)
      o₂)[s.ops.length]? = _
    rw [List.getElem?_append_right (Nat.le_refl _)]
    simp [zeroLenOps]
  · intro j hj
    show (s.ops ++ zeroLenOps s.call s.rwc (nthLastFilled step₁.stack 0)
      o₁)[j]? = (s.ops ++ zeroLenOps s.call s.rwc
        (nthLastFilled step₁.stack 0) o₂)[j]?
    by_cases hlt : j < s.ops.length
    · rw [List.getElem?_append_left hlt, List.getElem?_append_left hlt]
    · rw [List.getElem?_append_right (by omega),
        List.getElem?_append_right (by omega)]
      exact zeroLenOps_getElem?_pos s.call s.rwc
        (nthLastFilled step₁.stack 0) o₁ o₂ (j - s.ops.length) (by omega)

/-- Zero-length demo step with high bits set in the offset word. -/
def demoStepZhi : GethStep := { stack := [18446744073709551619, 0, 42] }

/-- Zero-length demo step with the same low offset bits and clear high
bits. -/
def demoStepZlo : GethStep := { stack := [3, 0, 42] }

/-- Results of the two high/low-offset demo runs. -/
def demoRunZhi : State :=
  okOr (genAssociatedOps demoStateD demoStepZhi) demoStateD

/-- Result of the low-offset demo run. -/
def demoRunZlo : State :=
  okOr (genAssociatedOps demoStateD demoStepZlo) demoStateD

/-- Witness for C9 at the high/low-offset demo runs. -/
theorem C9_offset_high_bits_witness :
    demoRunZhi.rwc = demoRunZlo.rwc ∧
    demoRunZhi.call = demoRunZlo.call ∧
    demoRunZhi.callMemory = demoRunZlo.callMemory ∧
    demoRunZhi.callerMemory = demoRunZlo.callerMemory ∧
    demoRunZhi.copyEvents = demoRunZlo.copyEvents ∧
    demoRunZhi.codeDB = demoRunZlo.codeDB ∧
    demoRunZhi.ops.length = demoRunZlo.ops.length ∧
    demoRunZhi.ops[demoStateD.ops.length]? = some ⟨demoStateD.rwc, RW.READ,
      OpKind.stackOp demoStateD.call.call_id
        (nthLastFilled demoStepZhi.stack 0) 18446744073709551619, false⟩ ∧
    demoRunZlo.ops[demoStateD.ops.length]? = some ⟨demoStateD.rwc, RW.READ,
      OpKind.stackOp demoStateD.call.call_id
        (nthLastFilled demoStepZlo.stack 0) 3, false⟩ ∧
    (∀ j, j ≠ demoStateD.ops.length →
      demoRunZhi.ops[j]? = demoRunZlo.ops[j]?) :=
  C9_offset_high_bits demoStateD demoStepZhi demoStepZlo
    18446744073709551619 3 [42] rfl rfl (by decide) demoRunZhi demoRunZlo
    (by rfl) (by rfl)

theorem drop_len_add {α : Type} (l₁ l₂ : List α) (n : Nat)
    (h : l₁.length = n) : (l₁ ++ l₂).drop n = l₂ := by
  subst h
  exact List.drop_left _ _

/-- C1: in a Case D run (non-root, non-creation call), the computed copy
length is `min (return_data_length, length)`; when it is positive the
caller's memory at the recorded return offset is physically overwritten
with the callee bytes before the audit records are emitted, so that
afterwards the caller region equals the callee region at call time, and
the audit trail consists of exactly `copy_length` READ/WRITE pairs over
those bytes. -/
theorem C1_caseD_copy (s : State) (step : GethStep) (o lw : Nat)
    (rest : List Nat) (s' : State)
    (hstack : step.stack = o :: lw :: rest)
    (hroot : s.call.is_root = false) (hcreate : s.call.is_create = false)
    (hlw0 : lw ≠ 0) (hlw : lw < 2 ^ 64)
    (hsum : wordLow64 o + wordLow64 lw < 2 ^ 64)
    (hcl : 0 < min s.call.return_data_length lw)
    (hro : s.call.return_data_offset + min s.call.return_data_length lw
      ≤ s.callerMemory.length)
    (h : genAssociatedOps s step = Except.ok s') :
    s'.callMemory = extendAtLeast s.callMemory
      (wordLow64 o + wordLow64 lw) ∧
    s'.callerMemory = writeSlice s.callerMemory s.call.return_data_offset
      (memSlice s'.callMemory (wordLow64 o)
        (min s.call.return_data_length lw)) ∧
    memSlice s'.callerMemory s.call.return_data_offset
        (min s.call.return_data_length lw)
      = memSlice s'.callMemory (wordLow64 o)
        (min s.call.return_data_length lw) ∧
    (memSlice s'.callMemory (wordLow64 o)
      (min s.call.return_data_length lw)).length
      = min s.call.return_data_length lw ∧
    s'.ops.drop (s.ops.length + 6)
      = copyOpsAux (s.rwc + 6) s.call.call_id s.call.caller_id
        (wordLow64 o) s.call.return_data_offset
        (memSlice s'.callMemory (wordLow64 o)
          (min s.call.return_data_length lw)) ∧
    (s'.ops.drop (s.ops.length + 6)).length
      = 2 * min s.call.return_data_length lw := by
  rw [run_caseD s step o lw rest hstack hroot hcreate hlw0 hlw hsum hcl]
    at h
  injection h with h2
  subst h2
  have hMlen : wordLow64 o + lw ≤ (extendAtLeast s.callMemory
      (wordLow64 o + wordLow64 lw)).length := by
    simp only [extendAtLeast_length, wordLow64]
    omega
  have hsl : (memSlice (extendAtLeast s.callMemory
      (wordLow64 o + wordLow64 lw)) (wordLow64 o)
      (min s.call.return_data_length lw)).length
      = min s.call.return_data_length lw := by
    apply memSlice_length_of_le
    omega
  refine ⟨rfl, rfl, ?_, hsl, ?_, ?_⟩
  · have hws := writeSlice_slice (memSlice (extendAtLeast s.callMemory
      (wordLow64 o + wordLow64 lw)) (wordLow64 o)
      (min s.call.return_data_length lw)) s.callerMemory
      s.call.return_data_offset (by rw [hsl]; exact hro)
    rw [hsl] at hws
    exact hws
  · exact drop_len_add _ _ _ (by simp)
  · rw [drop_len_add _ _ _ (by simp), copyOpsAux_length, hsl]

/-- Witness for C1 at the Case D demo run. -/
theorem C1_caseD_copy_witness :
    demoRunD.callMemory = extendAtLeast demoStateD.callMemory
      (wordLow64 1 + wordLow64 4) ∧
    demoRunD.callerMemory = writeSlice demoStateD.callerMemory
      demoStateD.call.return_data_offset
      (memSlice demoRunD.callMemory (wordLow64 1)
        (min demoStateD.call.return_data_length 4)) ∧
    memSlice demoRunD.callerMemory demoStateD.call.return_data_offset
        (min demoStateD.call.return_data_length 4)
      = memSlice demoRunD.callMemory (wordLow64 1)
        (min demoStateD.call.return_data_length 4) ∧
    (memSlice demoRunD.callMemory (wordLow64 1)
      (min demoStateD.call.return_data_length 4)).length
      = min demoStateD.call.return_data_length 4 ∧
    demoRunD.ops.drop (demoStateD.ops.length + 6)
      = copyOpsAux (demoStateD.rwc + 6) demoStateD.call.call_id
        demoStateD.call.caller_id (wordLow64 1)
        demoStateD.call.return_data_offset
        (memSlice demoRunD.callMemory (wordLow64 1)
          (min demoStateD.call.return_data_length 4)) ∧
    (demoRunD.ops.drop (demoStateD.ops.length + 6)).length
      = 2 * min demoStateD.call.return_data_length 4 :=
  C1_caseD_copy demoStateD demoStepD 1 4 [99] demoRunD rfl rfl rfl
    (by decide) (by decide) (by decide) (by decide) (by decide) (by rfl)

/-- C10: the memory-to-memory copy event of a Case D run carries the full
callee length operand in its source address range while its byte
snapshot holds only `min (return_data_length, length)` entries, so when
the recorded return-data length is smaller than the length operand the
source end address strictly exceeds the address one past the last
snapshotted byte. -/
theorem C10_src_range (s : State) (step : GethStep) (o lw : Nat)
    (rest : List Nat) (s' : State)
    (hstack : step.stack = o :: lw :: rest)
    (hroot : s.call.is_root = false) (hcreate : s.call.is_create = false)
    (hlw0 : lw ≠ 0) (hlw : lw < 2 ^ 64)
    (hsum : wordLow64 o + wordLow64 lw < 2 ^ 64)
    (hcl : 0 < min s.call.return_data_length lw)
    (hlt : s.call.return_data_length < lw)
    (h : genAssociatedOps s step = Except.ok s') :
    s'.copyEvents.length = s.copyEvents.length + 1 ∧
    (s'.copyEvents.drop s.copyEvents.length).all (fun ev =>
      decide (ev.src_type = CopyDataType.Memory) &&
      decide (ev.dst_type = CopyDataType.Memory) &&
      decide (ev.src_addr_end = ev.src_addr + lw) &&
      decide (ev.bytes.length = min s.call.return_data_length lw) &&
      decide (ev.src_addr + ev.bytes.length < ev.src_addr_end)) = true := by
  rw [run_caseD s step o lw rest hstack hroot hcreate hlw0 hlw hsum hcl]
    at h
  injection h with h2
  subst h2
  have hMlen : wordLow64 o + lw ≤ (extendAtLeast s.callMemory
      (wordLow64 o + wordLow64 lw)).length := by
    simp only [extendAtLeast_length, wordLow64]
    omega
  have hsl : (memSlice (extendAtLeast s.callMemory
      (wordLow64 o + wordLow64 lw)) (wordLow64 o)
      (min s.call.return_data_length lw)).length
      = min s.call.return_data_length lw := by
    apply memSlice_length_of_le
    omega
  refine ⟨by simp, ?_⟩
  rw [drop_len_add _ _ _ rfl]
  simp [hsl]
  all_goals omega

/-- Witness for C10 at the Case D demo run. -/
theorem C10_src_range_witness :
    demoRunD.copyEvents.length = demoStateD.copyEvents.length + 1 ∧
    (demoRunD.copyEvents.drop demoStateD.copyEvents.length).all (fun ev =>
      decide (ev.src_type = CopyDataType.Memory) &&
      decide (ev.dst_type = CopyDataType.Memory) &&
      decide (ev.src_addr_end = ev.src_addr + 4) &&
      decide (ev.bytes.length = min demoStateD.call.return_data_length 4) &&
      decide (ev.src_addr + ev.bytes.length < ev.src_addr_end)) = true :=
  C10_src_range demoStateD demoStepD 1 4 [99] demoRunD rfl rfl rfl
    (by decide) (by decide) (by decide) (by decide) (by decide) (by rfl)

/-- C2: a successful creation call with nonzero length emits a reversible
account write on the callee address's CodeHash field whose new value is
the content hash of the callee memory bytes `[offset, offset+length)` at
call time and whose previous value is the canonical empty-code hash,
immediately preceded by call-context reads of CallerId, CalleeAddress,
RwCounterEndOfReversion and IsPersistent, as one contiguous run of the
operation log. -/
theorem C2_code_hash_write (s : State) (step : GethStep) (o lw : Nat)
    (rest : List Nat) (s' : State)
    (hstack : step.stack = o :: lw :: rest)
    (hcreate : s.call.is_create = true) (hsucc : s.call.is_success = true)
    (hlw0 : lw ≠ 0) (hlw : lw < 2 ^ 64)
    (hsum : wordLow64 o + wordLow64 lw < 2 ^ 64)
    (h : genAssociatedOps s step = Except.ok s') :
    (memSlice (extendAtLeast s.callMemory (wordLow64 o + wordLow64 lw))
      (wordLow64 o) lw).length = lw ∧
    hasRun s'.ops
      [⟨s.rwc + 4 + (memSlice (extendAtLeast s.callMemory
          (wordLow64 o + wordLow64 lw)) (wordLow64 o) lw).length, RW.READ,
        OpKind.callContextOp s.call.call_id CallContextField.CallerId
          s.call.caller_id, false⟩,
       ⟨s.rwc + 5 + (memSlice (extendAtLeast s.callMemory
          (wordLow64 o + wordLow64 lw)) (wordLow64 o) lw).length, RW.READ,
        OpKind.callContextOp s.call.call_id CallContextField.CalleeAddress
          s.call.address, false⟩,
       ⟨s.rwc + 6 + (memSlice (extendAtLeast s.callMemory
          (wordLow64 o + wordLow64 lw)) (wordLow64 o) lw).length, RW.READ,
        OpKind.callContextOp s.call.call_id
          CallContextField.RwCounterEndOfReversion
          s.call.rw_counter_end_of_reversion, false⟩,
       ⟨s.rwc + 7 + (memSlice (extendAtLeast s.callMemory
          (wordLow64 o + wordLow64 lw)) (wordLow64 o) lw).length, RW.READ,
        OpKind.callContextOp s.call.call_id CallContextField.IsPersistent
          (boolToWord s.call.is_persistent), false⟩,
       ⟨s.rwc + 8 + (memSlice (extendAtLeast s.callMemory
          (wordLow64 o + wordLow64 lw)) (wordLow64 o) lw).length, RW.WRITE,
        OpKind.accountOp s.call.address AccountField.CodeHash
          (codeHash (memSlice (extendAtLeast s.callMemory
            (wordLow64 o + wordLow64 lw)) (wordLow64 o) lw))
          emptyCodeHash, true⟩] = true := by
  have hbyte : ¬ ((extendAtLeast s.callMemory
      (wordLow64 o + wordLow64 lw)).getD (wordLow64 o) 0
      = INVALID_INIT_CODE_FIRST_BYTE) := by
    intro hEF
    rw [run_caseA_err s step o lw rest hstack hcreate hsucc hlw0 hlw hsum
      hEF] at h
    simp at h
  rw [run_caseA_ok s step o lw rest hstack hcreate hsucc hlw0 hlw hsum
    hbyte] at h
  injection h with h2
  subst h2
  have hMlen : wordLow64 o + lw ≤ (extendAtLeast s.callMemory
      (wordLow64 o + wordLow64 lw)).length := by
    simp only [extendAtLeast_length, wordLow64]
    omega
  refine ⟨memSlice_length_of_le _ _ _ hMlen, ?_⟩
  obtain ⟨l, evs, hops, hrwc, hc, hev, hok⟩ := stepExt_returnRevertTail
    (wordLow64 o) lw _
  rw [hops]
  show hasRun ((s.ops ++ _ ++ createOpsAux _ _ _ _ ++ _) ++ l) _ = true
  rw [List.append_assoc (s.ops ++ _ ++ createOpsAux _ _ _ _)]
  exact hasRun_of_append _ _ _

/-- Witness for C2 at the Case A demo run. -/
theorem C2_code_hash_write_witness :
    (memSlice (extendAtLeast demoStateA.callMemory
      (wordLow64 0 + wordLow64 3)) (wordLow64 0) 3).length = 3 ∧
    hasRun demoRunA.ops
      [⟨demoStateA.rwc + 4 + (memSlice (extendAtLeast demoStateA.callMemory
          (wordLow64 0 + wordLow64 3)) (wordLow64 0) 3).length, RW.READ,
        OpKind.callContextOp demoStateA.call.call_id
          CallContextField.CallerId demoStateA.call.caller_id, false⟩,
       ⟨demoStateA.rwc + 5 + (memSlice (extendAtLeast demoStateA.callMemory
          (wordLow64 0 + wordLow64 3)) (wordLow64 0) 3).length, RW.READ,
        OpKind.callContextOp demoStateA.call.call_id
          CallContextField.CalleeAddress demoStateA.call.address, false⟩,
       ⟨demoStateA.rwc + 6 + (memSlice (extendAtLeast demoStateA.callMemory
          (wordLow64 0 + wordLow64 3)) (wordLow64 0) 3).length, RW.READ,
        OpKind.callContextOp demoStateA.call.call_id
          CallContextField.RwCounterEndOfReversion
          demoStateA.call.rw_counter_end_of_reversion, false⟩,
       ⟨demoStateA.rwc + 7 + (memSlice (extendAtLeast demoStateA.callMemory
          (wordLow64 0 + wordLow64 3)) (wordLow64 0) 3).length, RW.READ,
        OpKind.callContextOp demoStateA.call.call_id
          CallContextField.IsPersistent
          (boolToWord demoStateA.call.is_persistent), false⟩,
       ⟨demoStateA.rwc + 8 + (memSlice (extendAtLeast demoStateA.callMemory
          (wordLow64 0 + wordLow64 3)) (wordLow64 0) 3).length, RW.WRITE,
        OpKind.accountOp demoStateA.call.address AccountField.CodeHash
          (codeHash (memSlice (extendAtLeast demoStateA.callMemory
            (wordLow64 0 + wordLow64 3)) (wordLow64 0) 3))
          emptyCodeHash, true⟩] = true :=
  C2_code_hash_write demoStateA demoStepA 0 3 [8] demoRunA rfl rfl rfl
    (by decide) (by decide) (by decide) (by rfl)

/-- C8: in Case A the handler reads the first byte of the deployed code
from callee memory at `offset` and records it as a memory READ operation;
if that byte is the EIP-3541 banned leading byte `0xEF`, processing
aborts with the internal-consistency fault `Err.internalInvariant`,
distinct from every propagated trace-error kind, and nothing is
recovered or retried; otherwise the run succeeds and the READ record of
that byte is in the operation log. -/
theorem C8_eip3541 (s : State) (step : GethStep) (o lw : Nat)
    (rest : List Nat) (hstack : step.stack = o :: lw :: rest)
    (hcreate : s.call.is_create = true) (hsucc : s.call.is_success = true)
    (hlw0 : lw ≠ 0) (hlw : lw < 2 ^ 64)
    (hsum : wordLow64 o + wordLow64 lw < 2 ^ 64) :
    ((extendAtLeast s.callMemory (wordLow64 o + wordLow64 lw)).getD
        (wordLow64 o) 0 = INVALID_INIT_CODE_FIRST_BYTE →
      genAssociatedOps s step = Except.error Err.internalInvariant) ∧
    ((extendAtLeast s.callMemory (wordLow64 o + wordLow64 lw)).getD
        (wordLow64 o) 0 ≠ INVALID_INIT_CODE_FIRST_BYTE →
      (⟨s.rwc + 3, RW.READ, OpKind.memoryOp s.call.call_id (wordLow64 o)
        ((extendAtLeast s.callMemory (wordLow64 o + wordLow64 lw)).getD
          (wordLow64 o) 0), false⟩ : Operation)
        ∈ opsOf (genAssociatedOps s step)) ∧
    Err.internalInvariant ≠ Err.stackUnderflow ∧
    Err.internalInvariant ≠ Err.overflow := by
  refine ⟨?_, ?_, by decide, by decide⟩
  · intro hEF
    exact run_caseA_err s step o lw rest hstack hcreate hsucc hlw0 hlw hsum
      hEF
  · intro hbyte
    rw [run_caseA_ok s step o lw rest hstack hcreate hsucc hlw0 hlw hsum
      hbyte]
    obtain ⟨l, evs, hops, hrwc, hc, hev, hok⟩ := stepExt_returnRevertTail
      (wordLow64 o) lw _
    show _ ∈ (returnRevertTail _ _ _).ops
    rw [hops]
    simp [List.mem_append]

/-- Witness for C8 at the Case A demo state. -/
theorem C8_eip3541_witness :
    ((extendAtLeast demoStateA.callMemory (wordLow64 0 + wordLow64 3)).getD
        (wordLow64 0) 0 = INVALID_INIT_CODE_FIRST_BYTE →
      genAssociatedOps demoStateA demoStepA
        = Except.error Err.internalInvariant) ∧
    ((extendAtLeast demoStateA.callMemory (wordLow64 0 + wordLow64 3)).getD
        (wordLow64 0) 0 ≠ INVALID_INIT_CODE_FIRST_BYTE →
      (⟨demoStateA.rwc + 3, RW.READ, OpKind.memoryOp
        demoStateA.call.call_id (wordLow64 0)
        ((extendAtLeast demoStateA.callMemory
          (wordLow64 0 + wordLow64 3)).getD (wordLow64 0) 0), false⟩
          : Operation)
        ∈ opsOf (genAssociatedOps demoStateA demoStepA)) ∧
    Err.internalInvariant ≠ Err.stackUnderflow ∧
    Err.internalInvariant ≠ Err.overflow :=
  C8_eip3541 demoStateA demoStepA 0 3 [8] rfl rfl rfl (by decide)
    (by decide) (by decide)
